import Mathlib

/-!
Verification development for the NES emulator core (RustyNES / tetanes).

Shallow embedding of the parts of the source relevant to the frozen claims:
  * `src/mapper.rs`      — the `Mapper` sum type, `MappedRead` / `MappedWrite`
                           result types, and the default `MemMap` / `Mapped`
                           trait implementations (`Empty`, `use_ciram`).
  * `src/ppu/frame.rs`   — the double-buffered `Frame`, `put_pixel`,
                           `get_color`, `swap_buffers`, `decode_buffer`,
                           `apply_ntsc_filter`, and the `NTSC_PALETTE`
                           construction skeleton.
  * `src/nes.rs`         — the `clock_frame` / `clock_seconds` driver loops.
  * `src/nes/event.rs`   — `handle_gamepad_pressed`.

Machine integers are modelled as `Nat` (with explicit masking where the code
masks); Rust `f32` accumulators are modelled as exact rationals `Rat`;
fallible code (assertions) returns `Option`.  Code of the repository that is
not part of the provided sources (the PPU `Mirroring` enum, the system
palette, `Nes::clock`, the `Gamepad` struct) is modelled from the spec and
marked as such in its doc comment.
-/

namespace Tetanes

/-! ## Mirroring and the default `Mapped` implementation (`src/mapper.rs`) -/

/-- Modelled from the spec: the PPU `Mirroring` enum (`ppu.rs`, not under the
provided sources).  Spec §4.2: mirroring modes are
{Horizontal, Vertical, SingleScreenA, SingleScreenB, FourScreen}. -/
inductive Mirroring where
  | Horizontal
  | Vertical
  | SingleScreenA
  | SingleScreenB
  | FourScreen
deriving DecidableEq, Repr

/-- Default `Mapped::use_ciram` from `src/mapper.rs`:
`self.mirroring() != Some(Mirroring::FourScreen)`.  The default
implementation depends on `self` only through `mirroring()`, so it is
parametrised by the value `mirroring()` returns (`none` models a mapper that
keeps the default `mirroring` implementation returning `None`). -/
def use_ciram (mirroring : Option Mirroring) (_addr : Nat) : Bool :=
  decide (mirroring ≠ some Mirroring.FourScreen)

/-! ## `MappedRead` / `MappedWrite` and the `Empty` mapper (`src/mapper.rs`) -/

/-- Enum `MappedRead` from `src/mapper.rs`: `None`, `Chr(usize)`, `PrgRom(usize)`,
`PrgRam(usize)`, `Data(u8)`. -/
inductive MappedRead where
  | None
  | Chr (offset : Nat)
  | PrgRom (offset : Nat)
  | PrgRam (offset : Nat)
  | Data (val : Nat)
deriving DecidableEq, Repr

/-- Enum `MappedWrite` from `src/mapper.rs`: `None`, `Chr(usize, u8)`,
`PrgRam(usize, u8)`, `PrgRamProtect(bool)`. -/
inductive MappedWrite where
  | None
  | Chr (offset : Nat) (val : Nat)
  | PrgRam (offset : Nat) (val : Nat)
  | PrgRamProtect (protect : Bool)
deriving DecidableEq, Repr

/-- Whether a `MappedRead` is one of the four outcomes named by the spec
(a CHR bank offset, a PRG ROM offset, a PRG RAM offset, or a literal data
byte). -/
def MappedRead.isSpecOutcome : MappedRead → Bool
  | .None => false
  | .Chr _ => true
  | .PrgRom _ => true
  | .PrgRam _ => true
  | .Data _ => true

/-- Whether a `MappedWrite` is one of the three outcomes named by the spec
(a CHR bank write, a PRG RAM write, or a PRG-RAM-protect toggle). -/
def MappedWrite.isSpecOutcome : MappedWrite → Bool
  | .None => false
  | .Chr _ _ => true
  | .PrgRam _ _ => true
  | .PrgRamProtect _ => true

/-- The `Empty` mapper variant from `src/mapper.rs` (a field-less struct that
keeps every default trait implementation). -/
structure Empty where
deriving DecidableEq, Repr

/-- Default `MemMap::map_peek` (kept by `Empty`): returns `MappedRead::None`
for every address. -/
def Empty.map_peek (_e : Empty) (_addr : Nat) : MappedRead :=
  MappedRead.None

/-- Default `MemMap::map_read` (kept by `Empty`): delegates to `map_peek`. -/
def Empty.map_read (e : Empty) (addr : Nat) : MappedRead :=
  e.map_peek addr

/-- Default `MemMap::map_write` (kept by `Empty`): returns
`MappedWrite::None` for every address and value. -/
def Empty.map_write (_e : Empty) (_addr : Nat) (_val : Nat) : MappedWrite :=
  MappedWrite.None

/-! ## The `Mapper` sum type (`src/mapper.rs`) -/

/-- The constructor tags of the `Mapper` enum from `src/mapper.rs`, in source
order: `Empty, Nrom, Sxrom, Uxrom, Cnrom, Txrom, Exrom, Axrom, Pxrom, Vrc6,
Gxrom, Bf909x`. -/
inductive MapperVariant where
  | Empty
  | Nrom
  | Sxrom
  | Uxrom
  | Cnrom
  | Txrom
  | Exrom
  | Axrom
  | Pxrom
  | Vrc6
  | Gxrom
  | Bf909x
deriving DecidableEq, Repr

/-- The iNES mapper number each `Mapper` variant implements, read off the
module names of `src/mapper.rs` (`m000_nrom::Nrom`, `m001_sxrom::Sxrom`,
`m002_uxrom::Uxrom`, `m003_cnrom::Cnrom`, `m004_txrom::Txrom`,
`m005_exrom::Exrom`, `m007_axrom::Axrom`, `m009_pxrom::Pxrom`,
`m024_m026_vrc6::Vrc6`, `m066_gxrom::Gxrom`, `m071_bf909x::Bf909x`). -/
def mapperForNumber : Nat → Option MapperVariant
  | 0 => some MapperVariant.Nrom
  | 1 => some MapperVariant.Sxrom
  | 2 => some MapperVariant.Uxrom
  | 3 => some MapperVariant.Cnrom
  | 4 => some MapperVariant.Txrom
  | 5 => some MapperVariant.Exrom
  | 7 => some MapperVariant.Axrom
  | 9 => some MapperVariant.Pxrom
  | 24 => some MapperVariant.Vrc6
  | 26 => some MapperVariant.Vrc6
  | 66 => some MapperVariant.Gxrom
  | 71 => some MapperVariant.Bf909x
  | _ => none

/-- The mapper numbers the spec requires at minimum
("mappers 0, 1, 2, 3, 4, 5, 7, 9, 24/26, 66, 71"). -/
def requiredMappers : List Nat :=
  [0, 1, 2, 3, 4, 5, 7, 9, 24, 26, 66, 71]

/-! ## Gamepad handling (`src/nes/event.rs`) -/

/-- Modelled from the spec: the gamepad button state struct
(`control_deck`/input, not under the provided sources).  Spec §6: "per
controller, a struct of 8 boolean buttons {A, B, Select, Start, Up, Down,
Left, Right} plus turbo variants"; field names follow their uses in
`src/nes/event.rs`. -/
structure Gamepad where
  left : Bool
  right : Bool
  up : Bool
  down : Bool
  a : Bool
  b : Bool
  turbo_a : Bool
  turbo_b : Bool
  select : Bool
  start : Bool
deriving DecidableEq, Repr

/-- The gamepad buttons matched in `Nes::handle_gamepad_pressed`
(`src/nes/event.rs`); `Zapper` stands for the remaining variants handled by
the wildcard arms. -/
inductive GamepadBtn where
  | Left
  | Right
  | Up
  | Down
  | A
  | B
  | TurboA
  | TurboB
  | Select
  | Start
  | Zapper
deriving DecidableEq, Repr

/-- Function `Nes::handle_gamepad_pressed` from `src/nes/event.rs`, restricted to its
effect on the addressed gamepad (`self.control_deck.gamepad_mut(slot)`):
when `concurrent_dpad` is off and the button is being pressed, the opposing
d-pad direction is cleared first; then the addressed button is set. -/
def handle_gamepad_pressed (concurrent_dpad : Bool) (g : Gamepad)
    (button : GamepadBtn) (pressed : Bool) : Gamepad :=
  let g :=
    if !concurrent_dpad && pressed then
      match button with
      | .Left => { g with right := !pressed }
      | .Right => { g with left := !pressed }
      | .Up => { g with down := !pressed }
      | .Down => { g with up := !pressed }
      | _ => g
    else g
  match button with
  | .Left => { g with left := pressed }
  | .Right => { g with right := pressed }
  | .Up => { g with up := pressed }
  | .Down => { g with down := pressed }
  | .A => { g with a := pressed }
  | .B => { g with b := pressed }
  | .TurboA => { g with turbo_a := pressed, a := pressed }
  | .TurboB => { g with turbo_b := pressed, b := pressed }
  | .Select => { g with select := pressed }
  | .Start => { g with start := pressed }
  | .Zapper => g

/-- No opposing d-pad pair is pressed simultaneously. -/
def dpadOk (g : Gamepad) : Bool :=
  !(g.left && g.right) && !(g.up && g.down)

/-! ## The PPU frame (`src/ppu/frame.rs`) -/

/-- Modelled from the spec: `RENDER_WIDTH` (`ppu.rs`, not under the provided
sources); the framebuffer is 256 pixels wide. -/
def RENDER_WIDTH : Nat := 256

/-- Modelled from the spec: `RENDER_HEIGHT` (`ppu.rs`, not under the provided
sources); the framebuffer is 240 pixels high. -/
def RENDER_HEIGHT : Nat := 240

/-- Modelled from the spec: `RENDER_CHANNELS` (`ppu.rs`, not under the
provided sources); the output is RGBA, 4 bytes per pixel. -/
def RENDER_CHANNELS : Nat := 4

/-- Modelled from the spec: `RENDER_SIZE` (`ppu.rs`, not under the provided
sources); "a contiguous RGBA byte buffer of 256×240×4". -/
def RENDER_SIZE : Nat := RENDER_WIDTH * RENDER_HEIGHT * RENDER_CHANNELS

/-- Modelled from the spec: `SYSTEM_PALETTE_SIZE` (`ppu/vram.rs`, not under
the provided sources); "a static 64-entry master palette with 8 emphasis
variants (512 total)". -/
def SYSTEM_PALETTE_SIZE : Nat := 512

/-- The `Frame` struct from `src/ppu/frame.rs`.  `u16`/`u8`/`u32` fields are
modelled as `Nat`; the three `Vec` buffers as lists of `Nat`. -/
structure Frame where
  num : Nat
  shift_lo : Nat
  shift_hi : Nat
  tile_addr : Nat
  tile_lo : Nat
  tile_hi : Nat
  prev_palette : Nat
  curr_palette : Nat
  palette : Nat
  prev_pixel : Nat
  last_updated_pixel : Nat
  front_buffer : List Nat
  back_buffer : List Nat
  output_buffer : List Nat
deriving DecidableEq, Repr

/-- Impl `Reset for Frame` from `src/ppu/frame.rs`: zero `num` and all three
buffers, then (RGBA only) force every alpha byte — index
`RENDER_CHANNELS - 1` of each `RENDER_CHANNELS`-byte chunk — to 255. -/
def Frame.reset (f : Frame) : Frame :=
  let output := List.replicate f.output_buffer.length 0
  let output :=
    if RENDER_CHANNELS = 4 then
      (List.range output.length).map fun i =>
        if i % RENDER_CHANNELS = RENDER_CHANNELS - 1 then 255 else output.getD i 0
    else output
  { f with
    num := 0
    front_buffer := List.replicate f.front_buffer.length 0
    back_buffer := List.replicate f.back_buffer.length 0
    output_buffer := output }

/-- Constructor `Frame::new` from `src/ppu/frame.rs`: buffers of `RENDER_WIDTH *
RENDER_HEIGHT` palette indices (front and back) and `RENDER_SIZE` output
bytes, followed by a hard reset. -/
def Frame.new : Frame :=
  Frame.reset
    { num := 0
      shift_lo := 0
      shift_hi := 0
      tile_addr := 0
      tile_lo := 0
      tile_hi := 0
      prev_palette := 0
      curr_palette := 0
      palette := 0
      prev_pixel := 0xFFFFFFFF
      last_updated_pixel := 0
      front_buffer := List.replicate (RENDER_WIDTH * RENDER_HEIGHT) 0
      back_buffer := List.replicate (RENDER_WIDTH * RENDER_HEIGHT) 0
      output_buffer := List.replicate RENDER_SIZE 0 }

/-- Method `Frame::swap_buffers` from `src/ppu/frame.rs`:
`std::mem::swap(&mut self.front_buffer, &mut self.back_buffer)`. -/
def Frame.swap_buffers (f : Frame) : Frame :=
  { f with front_buffer := f.back_buffer, back_buffer := f.front_buffer }

/-- Method `Frame::get_color` from `src/ppu/frame.rs`:
`self.back_buffer[(x + (y << 8)) as usize]`. -/
def Frame.get_color (f : Frame) (x y : Nat) : Nat :=
  f.back_buffer.getD (x + (y <<< 8)) 0

/-- Method `Frame::put_pixel` from `src/ppu/frame.rs`:
`self.back_buffer[(x + (y << 8)) as usize] = color`. -/
def Frame.put_pixel (f : Frame) (x y color : Nat) : Frame :=
  { f with back_buffer := f.back_buffer.set (x + (y <<< 8)) color }

/-- The loop body of `Frame::decode_buffer` from `src/ppu/frame.rs`: walk
`front_buffer` zipped with the 4-byte chunks of `output_buffer`; write the
`SYSTEM_PALETTE` red/green/blue of the masked pixel into bytes 0–2 of the
chunk and keep byte 3 (alpha) as is.  The palette is passed in as `pal`
(its entries live in `ppu/vram.rs`, outside the provided sources). -/
def decodeLoop (pal : Nat → Nat × Nat × Nat) : List Nat → List Nat → List Nat
  | [], out => out
  | pixel :: front, out =>
      let rgb := pal (pixel &&& (SYSTEM_PALETTE_SIZE - 1))
      rgb.1 :: rgb.2.1 :: rgb.2.2 :: out.getD 3 0 :: decodeLoop pal front (out.drop 4)

/-- Method `Frame::decode_buffer` from `src/ppu/frame.rs`.  The function asserts
`front_buffer.len() * 4 == output_buffer.len()`; the assertion is modelled
by `Option` (`none` is the panic).  It returns (a reference to) the updated
`output_buffer`; here the whole updated frame is returned, the decoded
buffer being its `output_buffer`. -/
def Frame.decode_buffer (pal : Nat → Nat × Nat × Nat) (f : Frame) : Option Frame :=
  if f.front_buffer.length * 4 = f.output_buffer.length then
    some { f with output_buffer := decodeLoop pal f.front_buffer f.output_buffer }
  else none

/-! ## The NTSC composite filter (`src/ppu/frame.rs`) -/

/-- The length `512 * 64 * 3` of the `NTSC_PALETTE` lookup table
(`vec![0; 512 * 64 * 3]` in `src/ppu/frame.rs`). -/
def NTSC_PALETTE_LEN : Nat := 512 * 64 * 3

/-- The index written by the `NTSC_PALETTE` generator in `src/ppu/frame.rs`:
`palette_offset + color0_offset * 3 * 64 + color1_offset * 3`. -/
def ntscPaletteIdx (palette_offset color0_offset color1_offset : Nat) : Nat :=
  palette_offset + color0_offset * 3 * 64 + color1_offset * 3

/-- The loop/indexing skeleton of the `NTSC_PALETTE` generator in
`src/ppu/frame.rs`: start from `vec![0; 512 * 64 * 3]` and, for every
`palette_offset < 3`, `channel < 3`, `color0_offset < 512`,
`color1_offset < 64`, add a contribution into entry
`ntscPaletteIdx palette_offset color0_offset color1_offset`.  The `f64`
YIQ-to-RGB value accumulated at each step is abstracted as `contrib`
(floating-point arithmetic is not modelled); the claims here concern only
the table's extent and the indices touched. -/
def mkNtscPalette (contrib : Nat → Nat → Nat → Nat → Nat) : List Nat :=
  (List.range 3).foldl
    (fun acc palette_offset =>
      (List.range 3).foldl
        (fun acc channel =>
          (List.range 512).foldl
            (fun acc color0_offset =>
              (List.range 64).foldl
                (fun acc color1_offset =>
                  let idx := ntscPaletteIdx palette_offset color0_offset color1_offset
                  acc.set idx
                    (acc.getD idx 0 + contrib palette_offset channel color0_offset color1_offset))
                acc)
            acc)
        acc)
    (List.replicate (512 * 64 * 3) 0)

/-- The `NTSC_PALETTE` index read by `Frame::apply_ntsc_filter` in
`src/ppu/frame.rs` for the pixel at flat position `i` (`x = i % 256`,
`y = i / 256`):
`phase + ((prev_pixel & 0x3F) as usize) * 3 + (pixel as usize) * 3 * 64`
with `phase = (2 + y * 341 + x + even_phase) % 3` and `even_phase = 0` when
`num` is odd, `1` otherwise. -/
def ntscAccessIdx (num prev pixel i : Nat) : Nat :=
  let x := i % 256
  let y := i / 256
  let even_phase := if num &&& 1 = 1 then 0 else 1
  let phase := (2 + y * 341 + x + even_phase) % 3
  phase + (prev &&& 0x3F) * 3 + pixel * 3 * 64

/-- The loop body of `Frame::apply_ntsc_filter` from `src/ppu/frame.rs`:
walk `front_buffer` zipped with the 4-byte chunks of `output_buffer`,
threading `prev_pixel` and the flat index `i`.  Column 0 outputs color 0
(artifact removal); any other column looks the NTSC color up in the table
`ntsc` at `ntscAccessIdx`; bytes 0–2 of the chunk get the color's R/G/B
bytes and byte 3 (alpha) is kept.  Returns the rewritten output bytes and
the final `prev_pixel`. -/
def ntscLoop (ntsc : Nat → Nat) (num : Nat) :
    List Nat → List Nat → Nat → Nat → List Nat × Nat
  | [], out, prev, _ => (out, prev)
  | pixel :: front, out, prev, i =>
      let color := if i % 256 = 0 then 0 else ntsc (ntscAccessIdx num prev pixel i)
      let rest := ntscLoop ntsc num front (out.drop 4) pixel (i + 1)
      (((color >>> 16) &&& 0xFF) :: ((color >>> 8) &&& 0xFF) :: (color &&& 0xFF) ::
        out.getD 3 0 :: rest.1, rest.2)

/-- The list of `NTSC_PALETTE` indices `Frame::apply_ntsc_filter` reads while
processing `front` from threaded state `(prev, i)` (column 0 reads
nothing). -/
def ntscAccesses (num : Nat) : List Nat → Nat → Nat → List Nat
  | [], _, _ => []
  | pixel :: front, prev, i =>
      (if i % 256 = 0 then [] else [ntscAccessIdx num prev pixel i]) ++
        ntscAccesses num front pixel (i + 1)

/-- Method `Frame::apply_ntsc_filter` from `src/ppu/frame.rs`.  As in
`decode_buffer`, the length assertion is modelled by `Option`; the lookup
table is passed in as the read-only function `ntsc`. -/
def Frame.apply_ntsc_filter (ntsc : Nat → Nat) (f : Frame) : Option Frame :=
  if f.front_buffer.length * 4 = f.output_buffer.length then
    let r := ntscLoop ntsc f.num f.front_buffer f.output_buffer f.prev_pixel 0
    some { f with output_buffer := r.1, prev_pixel := r.2 }
  else none

/-! ## The control-deck clocking loops (`src/nes.rs`) -/

/-- Modelled from the spec: `CPU_CLOCK_RATE` (`cpu.rs`, not under the
provided sources); the NTSC CPU clock, about 1.78977 MHz ("roughly 29,780.5
CPU cycles" per ~60 Hz frame).  The `f32` constant is modelled as an exact
rational; only its positivity matters below. -/
def CPU_CLOCK_RATE : Rat := 1789773

/-- The state `Nes::clock_frame` / `Nes::clock_seconds` (`src/nes.rs`)
operate on: the `cpu_break` flag, the PPU's `frame_complete` flag
(`self.cpu.bus.ppu.frame_complete`), the fractional `cycles_remaining`
accumulator (`f32`, modelled as `Rat`), and the rest of the machine
abstracted as `mach : M`. -/
structure NesState (M : Type) where
  cpu_break : Bool
  frame_complete : Bool
  cycles_remaining : Rat
  mach : M
deriving Repr

/-- Modelled from the spec: `Nes::clock` (`src/nes/state.rs`, not under the
provided sources) is abstracted as an arbitrary step function returning the
updated state and the number of CPU cycles consumed.  Spec: the deck clocks
the CPU one instruction and the PPU/APU in ratio; after a KIL opcode
"subsequent `clock()` returns 0 forever". -/
def NesClock (M : Type) : Type :=
  NesState M → NesState M × Nat

/-- The `while !self.cpu_break && !self.cpu.bus.ppu.frame_complete` loop of
`Nes::clock_frame` (`src/nes.rs`), with an explicit fuel bound: `none`
means the loop has not exited within `fuel` iterations.  The cycle count
returned by `clock()` is discarded (`let _ = self.clock()`). -/
def clockFrameLoop (clock : NesClock M) : Nat → NesState M → Option (NesState M)
  | 0, _ => none
  | fuel + 1, s =>
      if s.cpu_break = false ∧ s.frame_complete = false then
        clockFrameLoop clock fuel (clock s).1
      else some s

/-- Method `Nes::clock_frame` from `src/nes.rs`: run the loop, then clear
`cpu_break` and `frame_complete`. -/
def clock_frame (clock : NesClock M) (fuel : Nat) (s : NesState M) :
    Option (NesState M) :=
  (clockFrameLoop clock fuel s).map fun s_exit =>
    { s_exit with cpu_break := false, frame_complete := false }

/-- The `f32` arithmetic `Nes::clock_seconds` (`src/nes.rs`) performs on its
`cycles_remaining` accumulator: the `+=`/`*` of line 155 and the `-=` of
line 157.  An `f32` value is carried as the exact rational it denotes, but
the *operations* round, so they enter the model as parameters rather than as
exact rational arithmetic: every theorem either quantifies over them or
hypothesises only properties the IEEE-754 operations actually have on the
values of the run in question.  (Comparisons such as `> 0.0` are exact in
IEEE-754 and are modelled directly.) -/
structure F32Ops where
  add : Rat → Rat → Rat
  mul : Rat → Rat → Rat
  sub : Rat → Rat → Rat

/-- The exact-rational instantiation of `F32Ops`.  IEEE-754 `f32` arithmetic
coincides with it whenever operands and results are exactly representable —
in particular on the KIL counterexample below, whose only values are the
integer `CPU_CLOCK_RATE` (below `2^24`) and subtractions of `0`. -/
def exactF32 : F32Ops :=
  { add := fun a b => a + b, mul := fun a b => a * b, sub := fun a b => a - b }

/-- An f32-style absorbing subtraction: once the minuend has reached `2^25`
(where the IEEE-754 single-precision ulp is at least 4), subtracting 1 or
less rounds back to the minuend unchanged — exactly what `f32` does there;
elsewhere it subtracts exactly. -/
def absorbSub (x c : Rat) : Rat :=
  if 2 ^ 25 ≤ x ∧ c ≤ 1 then x else x - c

/-- An `F32Ops` with exact add/mul and the absorbing subtraction: a sound
stand-in for IEEE-754 `f32` on runs whose accumulator is an exactly
representable integer at least `2^25` and whose per-step cycle count is 1. -/
def absorbF32 : F32Ops :=
  { add := fun a b => a + b, mul := fun a b => a * b, sub := absorbSub }

/-- The `while !self.cpu_break && self.cycles_remaining > 0.0` loop of
`Nes::clock_seconds` (`src/nes.rs`), with an explicit fuel bound; each
iteration subtracts the cycles returned by `clock()` from
`cycles_remaining` using the `f32` subtraction `ops.sub`. -/
def clockSecondsLoop (ops : F32Ops) (clock : NesClock M) :
    Nat → NesState M → Option (NesState M)
  | 0, _ => none
  | fuel + 1, s =>
      if s.cpu_break = false ∧ 0 < s.cycles_remaining then
        let r := clock s
        clockSecondsLoop ops clock fuel
          { r.1 with cycles_remaining := ops.sub r.1.cycles_remaining (r.2 : Rat) }
      else some s

/-- Method `Nes::clock_seconds` from `src/nes.rs`: add
`CPU_CLOCK_RATE * seconds` to `cycles_remaining` (in `f32`, via `ops`), run
the loop, zero `cycles_remaining` if the loop stopped on `cpu_break`, then
clear `cpu_break`. -/
def clock_seconds (ops : F32Ops) (clock : NesClock M) (fuel : Nat)
    (seconds : Rat) (s : NesState M) : Option (NesState M) :=
  let s0 := { s with
    cycles_remaining := ops.add s.cycles_remaining (ops.mul CPU_CLOCK_RATE seconds) }
  (clockSecondsLoop ops clock fuel s0).map fun s_exit =>
    let s_exit :=
      if s_exit.cpu_break then { s_exit with cycles_remaining := 0 } else s_exit
    { s_exit with cpu_break := false }

/-- Iterate `clock` `n` times (state component only). -/
def stepN (clock : NesClock M) : Nat → NesState M → NesState M
  | 0, s => s
  | n + 1, s => stepN clock n (clock s).1

/-- Predicate: `Nes::clock_frame` terminates from `s`: some fuel suffices for the loop
to exit. -/
def clockFrameTerminates (clock : NesClock M) (s : NesState M) : Prop :=
  ∃ fuel r, clock_frame clock fuel s = some r

/-- Predicate: `Nes::clock_seconds seconds` terminates from `s` under the
`f32` arithmetic `ops`: some fuel suffices for the loop to exit. -/
def clockSecondsTerminates (ops : F32Ops) (clock : NesClock M) (seconds : Rat)
    (s : NesState M) : Prop :=
  ∃ fuel r, clock_seconds ops clock fuel seconds s = some r

/-- A jammed machine, as the spec describes the effect of the KIL opcodes:
every `clock()` leaves the state unchanged and returns 0 cycles. -/
def jamClock (M : Type) : NesClock M :=
  fun s => (s, 0)

/-- A machine whose `clock()` always consumes exactly one cycle and changes
nothing else. -/
def oneClock : NesClock Unit :=
  fun s => (s, 1)

/-- A state of the jammed machine: no pending break, frame not complete. -/
def jamState : NesState Unit :=
  { cpu_break := false, frame_complete := false, cycles_remaining := 0, mach := () }

/-- A state in which a CPU breakpoint has fired (`cpu_break = true`) while
the PPU has not signalled end-of-frame. -/
def breakState : NesState Unit :=
  { cpu_break := true, frame_complete := false, cycles_remaining := 0, mach := () }

/-- A state in which the PPU has just signalled end-of-frame. -/
def completeState : NesState Unit :=
  { cpu_break := false, frame_complete := true, cycles_remaining := 0, mach := () }

/-! ## Theorems -/

/-- C5: for every mapper using the default `Mapped` implementation and every
address, `use_ciram addr` returns `false` exactly when `mirroring()` reports
`FourScreen`; every other reported mode, and a default `mirroring()` of
`None`, uses the console-internal CIRAM. -/
theorem use_ciram_false_iff_four_screen :
    ∀ (m : Option Mirroring) (addr : Nat),
      use_ciram m addr = false ↔ m = some Mirroring.FourScreen := by
  intro m addr
  cases m with
  | none => simp [use_ciram]
  | some v => cases v <;> simp [use_ciram]

/-- C3 counterexample: the `Empty` mapper variant (and with it the default
`MemMap` implementation) returns `MappedRead::None` from `map_peek` and
`MappedWrite::None` from `map_write`, a fifth (resp. fourth) outcome beyond
the four read outcomes and three write outcomes the claim lists. -/
theorem mapped_outcomes_counterexample :
    Empty.map_peek Empty.mk 0x8000 = MappedRead.None ∧
    (Empty.map_peek Empty.mk 0x8000).isSpecOutcome = false ∧
    Empty.map_write Empty.mk 0x8000 0 = MappedWrite.None ∧
    (Empty.map_write Empty.mk 0x8000 0).isSpecOutcome = false :=
  ⟨rfl, rfl, rfl, rfl⟩

/-- C3 amended: `map_peek` returns one of exactly five tagged outcomes —
`None` (unmapped), a CHR bank offset, a PRG ROM offset, a PRG RAM offset, or
a literal data byte — and `map_write` one of exactly four — `None`
(unmapped), a CHR bank write, a PRG RAM write, or a PRG-RAM-protect toggle;
the default implementation (`Empty`) always produces the `None` outcomes and
`map_read` delegates to `map_peek`. -/
theorem mapped_outcomes_amended :
    (∀ r : MappedRead, r = MappedRead.None ∨
      (∃ n, r = MappedRead.Chr n) ∨ (∃ n, r = MappedRead.PrgRom n) ∨
      (∃ n, r = MappedRead.PrgRam n) ∨ (∃ v, r = MappedRead.Data v)) ∧
    (∀ w : MappedWrite, w = MappedWrite.None ∨
      (∃ n v, w = MappedWrite.Chr n v) ∨ (∃ n v, w = MappedWrite.PrgRam n v) ∨
      (∃ b, w = MappedWrite.PrgRamProtect b)) ∧
    (∀ r : MappedRead, r.isSpecOutcome = false ↔ r = MappedRead.None) ∧
    (∀ w : MappedWrite, w.isSpecOutcome = false ↔ w = MappedWrite.None) ∧
    (∀ (e : Empty) (addr : Nat), e.map_read addr = e.map_peek addr ∧
      e.map_peek addr = MappedRead.None ∧
      ∀ v, e.map_write addr v = MappedWrite.None) := by
  refine ⟨?_, ?_, ?_, ?_, ?_⟩
  · intro r
    cases r with
    | None => exact Or.inl rfl
    | Chr n => exact Or.inr (Or.inl ⟨n, rfl⟩)
    | PrgRom n => exact Or.inr (Or.inr (Or.inl ⟨n, rfl⟩))
    | PrgRam n => exact Or.inr (Or.inr (Or.inr (Or.inl ⟨n, rfl⟩)))
    | Data v => exact Or.inr (Or.inr (Or.inr (Or.inr ⟨v, rfl⟩)))
  · intro w
    cases w with
    | None => exact Or.inl rfl
    | Chr n v => exact Or.inr (Or.inl ⟨n, v, rfl⟩)
    | PrgRam n v => exact Or.inr (Or.inr (Or.inl ⟨n, v, rfl⟩))
    | PrgRamProtect b => exact Or.inr (Or.inr (Or.inr ⟨b, rfl⟩))
  · intro r
    cases r <;> simp [MappedRead.isSpecOutcome]
  · intro w
    cases w <;> simp [MappedWrite.isSpecOutcome]
  · intro e addr
    exact ⟨rfl, rfl, fun _v => rfl⟩

/-- C8: the `Mapper` enum is a single tagged sum type with one concrete
variant for each required mapper number — 0 (NROM), 1 (MMC1/Sxrom),
2 (UxROM), 3 (CNROM), 4 (MMC3/Txrom), 5 (MMC5/Exrom), 7 (AxROM),
9 (MMC2/Pxrom), 24/26 (VRC6), 66 (GxROM), 71 (Codemasters/Bf909x) — and
none of the required numbers falls through to the `Empty` placeholder. -/
theorem mapper_variants_cover_required :
    (requiredMappers.all fun n =>
      (mapperForNumber n).isSome &&
        decide (mapperForNumber n ≠ some MapperVariant.Empty)) = true ∧
    mapperForNumber 0 = some MapperVariant.Nrom ∧
    mapperForNumber 1 = some MapperVariant.Sxrom ∧
    mapperForNumber 2 = some MapperVariant.Uxrom ∧
    mapperForNumber 3 = some MapperVariant.Cnrom ∧
    mapperForNumber 4 = some MapperVariant.Txrom ∧
    mapperForNumber 5 = some MapperVariant.Exrom ∧
    mapperForNumber 7 = some MapperVariant.Axrom ∧
    mapperForNumber 9 = some MapperVariant.Pxrom ∧
    mapperForNumber 24 = some MapperVariant.Vrc6 ∧
    mapperForNumber 26 = some MapperVariant.Vrc6 ∧
    mapperForNumber 66 = some MapperVariant.Gxrom ∧
    mapperForNumber 71 = some MapperVariant.Bf909x := by
  decide

/-- C10: with `concurrent_dpad` off, `handle_gamepad_pressed` preserves the
invariant that no gamepad has both Left and Right, nor both Up and Down,
pressed simultaneously; pressing one direction of an opposing pair clears
the other. -/
theorem concurrent_dpad_invariant :
    (∀ (g : Gamepad) (button : GamepadBtn) (pressed : Bool),
       dpadOk g = true → dpadOk (handle_gamepad_pressed false g button pressed) = true) ∧
    (∀ g : Gamepad,
       (handle_gamepad_pressed false g GamepadBtn.Left true).right = false ∧
       (handle_gamepad_pressed false g GamepadBtn.Right true).left = false ∧
       (handle_gamepad_pressed false g GamepadBtn.Up true).down = false ∧
       (handle_gamepad_pressed false g GamepadBtn.Down true).up = false) := by
  constructor
  · intro g button pressed h
    cases g
    cases button <;> cases pressed <;> simp_all [handle_gamepad_pressed, dpadOk]
  · intro g
    cases g
    exact ⟨rfl, rfl, rfl, rfl⟩

/-- A gamepad state with only Right pressed. -/
def gpadRightOnly : Gamepad :=
  { left := false, right := true, up := false, down := false, a := false,
    b := false, turbo_a := false, turbo_b := false, select := false,
    start := false }

/-- C10 witness: pressing Left on a gamepad that currently holds Right keeps
the opposing-pair invariant. -/
theorem concurrent_dpad_invariant_witness :
    dpadOk gpadRightOnly = true ∧
    dpadOk (handle_gamepad_pressed false gpadRightOnly GamepadBtn.Left true) = true :=
  ⟨rfl, concurrent_dpad_invariant.1 gpadRightOnly GamepadBtn.Left true rfl⟩

/-! ### List helpers -/

theorem getD_drop (l : List Nat) (i j d : Nat) :
    (l.drop i).getD j d = l.getD (i + j) d := by
  simp [List.getD_eq_getElem?_getD, List.getElem?_drop]

theorem getD_cons4 (a b c d : Nat) (l : List Nat) (n : Nat) :
    (a :: b :: c :: d :: l).getD (n + 4) 0 = l.getD n 0 := by
  simp [show n + 4 = n + 1 + 1 + 1 + 1 from by ring, List.getD_cons_succ]

theorem getD_range_map (n i : Nat) (f : Nat → Nat) (h : i < n) :
    ((List.range n).map f).getD i 0 = f i := by
  simp [List.getD_eq_getElem?_getD, List.getElem?_map, List.getElem?_range, h]

/-! ### Frame lemmas -/

theorem decodeLoop_length (pal : Nat → Nat × Nat × Nat) :
    ∀ (front out : List Nat), out.length = 4 * front.length →
      (decodeLoop pal front out).length = out.length := by
  intro front
  induction front with
  | nil => intro out _h; rfl
  | cons p front ih =>
      intro out h
      have hd : (out.drop 4).length = 4 * front.length := by
        simp only [List.length_drop, h, List.length_cons]
        omega
      simp only [decodeLoop, List.length_cons]
      rw [ih (out.drop 4) hd]
      simp only [List.length_drop, h, List.length_cons]
      omega

theorem decodeLoop_getD (pal : Nat → Nat × Nat × Nat) :
    ∀ (front out : List Nat) (i : Nat), i < front.length →
      (decodeLoop pal front out).getD (4 * i) 0 =
        (pal (front.getD i 0 &&& (SYSTEM_PALETTE_SIZE - 1))).1 ∧
      (decodeLoop pal front out).getD (4 * i + 1) 0 =
        (pal (front.getD i 0 &&& (SYSTEM_PALETTE_SIZE - 1))).2.1 ∧
      (decodeLoop pal front out).getD (4 * i + 2) 0 =
        (pal (front.getD i 0 &&& (SYSTEM_PALETTE_SIZE - 1))).2.2 ∧
      (decodeLoop pal front out).getD (4 * i + 3) 0 = out.getD (4 * i + 3) 0 := by
  intro front
  induction front with
  | nil => intro out i hi; exact absurd hi (by simp)
  | cons p front ih =>
      intro out i hi
      cases i with
      | zero => exact ⟨rfl, rfl, rfl, rfl⟩
      | succ i =>
          have hi' : i < front.length := by
            simpa using Nat.lt_of_succ_lt_succ hi
          have e0 : 4 * (i + 1) = 4 * i + 4 := by ring
          have e1 : 4 * (i + 1) + 1 = 4 * i + 1 + 4 := by ring
          have e2 : 4 * (i + 1) + 2 = 4 * i + 2 + 4 := by ring
          have e3 : 4 * (i + 1) + 3 = 4 * i + 3 + 4 := by ring
          obtain ⟨h0, h1, h2, h3⟩ := ih (out.drop 4) i hi'
          refine ⟨?_, ?_, ?_, ?_⟩
          · rw [show decodeLoop pal (p :: front) out =
              (pal (p &&& (SYSTEM_PALETTE_SIZE - 1))).1 ::
              (pal (p &&& (SYSTEM_PALETTE_SIZE - 1))).2.1 ::
              (pal (p &&& (SYSTEM_PALETTE_SIZE - 1))).2.2 ::
              out.getD 3 0 :: decodeLoop pal front (out.drop 4) from rfl,
              e0, getD_cons4, h0, List.getD_cons_succ]
          · rw [show decodeLoop pal (p :: front) out =
              (pal (p &&& (SYSTEM_PALETTE_SIZE - 1))).1 ::
              (pal (p &&& (SYSTEM_PALETTE_SIZE - 1))).2.1 ::
              (pal (p &&& (SYSTEM_PALETTE_SIZE - 1))).2.2 ::
              out.getD 3 0 :: decodeLoop pal front (out.drop 4) from rfl,
              e1, getD_cons4, h1, List.getD_cons_succ]
          · rw [show decodeLoop pal (p :: front) out =
              (pal (p &&& (SYSTEM_PALETTE_SIZE - 1))).1 ::
              (pal (p &&& (SYSTEM_PALETTE_SIZE - 1))).2.1 ::
              (pal (p &&& (SYSTEM_PALETTE_SIZE - 1))).2.2 ::
              out.getD 3 0 :: decodeLoop pal front (out.drop 4) from rfl,
              e2, getD_cons4, h2, List.getD_cons_succ]
          · rw [show decodeLoop pal (p :: front) out =
              (pal (p &&& (SYSTEM_PALETTE_SIZE - 1))).1 ::
              (pal (p &&& (SYSTEM_PALETTE_SIZE - 1))).2.1 ::
              (pal (p &&& (SYSTEM_PALETTE_SIZE - 1))).2.2 ::
              out.getD 3 0 :: decodeLoop pal front (out.drop 4) from rfl,
              e3, getD_cons4, h3, getD_drop]
            congr 1
            omega

theorem new_front_length :
    Frame.new.front_buffer.length = RENDER_WIDTH * RENDER_HEIGHT := by
  simp [Frame.new, Frame.reset]

theorem new_back_length :
    Frame.new.back_buffer.length = RENDER_WIDTH * RENDER_HEIGHT := by
  simp [Frame.new, Frame.reset]

theorem new_output_length :
    Frame.new.output_buffer.length = RENDER_SIZE := by
  simp [Frame.new, Frame.reset, RENDER_CHANNELS]

theorem new_output_alpha (j : Nat) (hj : j < RENDER_SIZE) (h3 : j % 4 = 3) :
    Frame.new.output_buffer.getD j 0 = 255 := by
  have hbuf : Frame.new.output_buffer =
      (List.range RENDER_SIZE).map
        (fun i => if i % 4 = 3 then 255 else (List.replicate RENDER_SIZE (0 : Nat)).getD i 0) := by
    simp [Frame.new, Frame.reset, RENDER_CHANNELS]
  rw [hbuf, getD_range_map _ _ _ hj]
  simp [h3]

/-- C4: `put_pixel` modifies only the back buffer (the front buffer, the
RGBA output buffer, and every other field are unchanged); `decode_buffer`
reads pixel data only from the front buffer (its result is invariant under
any change of the back buffer, which is carried through untouched); and
`swap_buffers` exchanges the front and back buffers while changing no pixel
values and no other field of the `Frame`. -/
theorem double_buffering_separation :
    (∀ (f : Frame) (x y c : Nat),
       (f.put_pixel x y c).front_buffer = f.front_buffer ∧
       (f.put_pixel x y c).output_buffer = f.output_buffer ∧
       (f.put_pixel x y c).num = f.num ∧
       (f.put_pixel x y c).shift_lo = f.shift_lo ∧
       (f.put_pixel x y c).shift_hi = f.shift_hi ∧
       (f.put_pixel x y c).tile_addr = f.tile_addr ∧
       (f.put_pixel x y c).tile_lo = f.tile_lo ∧
       (f.put_pixel x y c).tile_hi = f.tile_hi ∧
       (f.put_pixel x y c).prev_palette = f.prev_palette ∧
       (f.put_pixel x y c).curr_palette = f.curr_palette ∧
       (f.put_pixel x y c).palette = f.palette ∧
       (f.put_pixel x y c).prev_pixel = f.prev_pixel ∧
       (f.put_pixel x y c).last_updated_pixel = f.last_updated_pixel) ∧
    (∀ (pal : Nat → Nat × Nat × Nat) (f : Frame) (b : List Nat),
       Frame.decode_buffer pal { f with back_buffer := b } =
         (Frame.decode_buffer pal f).map fun f2 => { f2 with back_buffer := b }) ∧
    (∀ f : Frame,
       f.swap_buffers.front_buffer = f.back_buffer ∧
       f.swap_buffers.back_buffer = f.front_buffer ∧
       f.swap_buffers.output_buffer = f.output_buffer ∧
       f.swap_buffers.num = f.num ∧
       f.swap_buffers.shift_lo = f.shift_lo ∧
       f.swap_buffers.shift_hi = f.shift_hi ∧
       f.swap_buffers.tile_addr = f.tile_addr ∧
       f.swap_buffers.tile_lo = f.tile_lo ∧
       f.swap_buffers.tile_hi = f.tile_hi ∧
       f.swap_buffers.prev_palette = f.prev_palette ∧
       f.swap_buffers.curr_palette = f.curr_palette ∧
       f.swap_buffers.palette = f.palette ∧
       f.swap_buffers.prev_pixel = f.prev_pixel ∧
       f.swap_buffers.last_updated_pixel = f.last_updated_pixel) := by
  refine ⟨?_, ?_, ?_⟩
  · intro f x y c
    exact ⟨rfl, rfl, rfl, rfl, rfl, rfl, rfl, rfl, rfl, rfl, rfl, rfl, rfl⟩
  · intro pal f b
    by_cases h : f.front_buffer.length * 4 = f.output_buffer.length
    · simp [Frame.decode_buffer, h]
    · simp [Frame.decode_buffer, h]
  · intro f
    exact ⟨rfl, rfl, rfl, rfl, rfl, rfl, rfl, rfl, rfl, rfl, rfl, rfl, rfl, rfl⟩

/-- C9: for every `x < 256` and `y < 240` and every 16-bit color `c`,
`put_pixel x y c` followed by `get_color x y` returns `c`, and the index
`x + (y << 8)` both operations use lies inside the 256×240 back buffer. -/
theorem put_get_roundtrip :
    ∀ (f : Frame) (x y c : Nat),
      x < RENDER_WIDTH → y < RENDER_HEIGHT → c < 65536 →
      f.back_buffer.length = RENDER_WIDTH * RENDER_HEIGHT →
      x + (y <<< 8) < f.back_buffer.length ∧
      (f.put_pixel x y c).get_color x y = c := by
  intro f x y c hx hy _hc hlen
  have h256 : (2 : Nat) ^ 8 = 256 := by norm_num
  have hidx : x + (y <<< 8) < f.back_buffer.length := by
    rw [hlen, Nat.shiftLeft_eq, h256]
    simp only [RENDER_WIDTH] at hx
    simp only [RENDER_HEIGHT] at hy
    simp only [RENDER_WIDTH, RENDER_HEIGHT]
    omega
  refine ⟨hidx, ?_⟩
  simp only [Frame.put_pixel, Frame.get_color]
  simp [List.getD, List.getElem?_set_self, hidx]

/-- C9 witness: on a fresh frame, writing color 1234 at (5, 7) and reading
it back returns 1234, within bounds. -/
theorem put_get_roundtrip_witness :
    (5 < RENDER_WIDTH ∧ 7 < RENDER_HEIGHT ∧ 1234 < 65536 ∧
      Frame.new.back_buffer.length = RENDER_WIDTH * RENDER_HEIGHT) ∧
    (5 + (7 <<< 8) < Frame.new.back_buffer.length ∧
      (Frame.new.put_pixel 5 7 1234).get_color 5 7 = 1234) :=
  ⟨⟨by decide, by decide, by decide, new_back_length⟩,
    put_get_roundtrip Frame.new 5 7 1234 (by decide) (by decide) (by decide)
      new_back_length⟩

/-- C6: on a well-formed frame (256×240 front buffer, 256×240×4 output
buffer), `decode_buffer` succeeds and returns a buffer of exactly
`256 * 240 * 4` bytes in which, for every pixel `i`, bytes 0–2 are the red,
green, blue components of the system-palette entry at the pixel's value
masked to the system-palette size, byte 3 (alpha) is carried over unmodified
from the previous output buffer, and after a reset (`Frame::new`) every
alpha byte is 255. -/
theorem decode_buffer_rgba :
    ∀ (pal : Nat → Nat × Nat × Nat) (f : Frame),
      f.front_buffer.length = RENDER_WIDTH * RENDER_HEIGHT →
      f.output_buffer.length = RENDER_SIZE →
      ∃ f2, Frame.decode_buffer pal f = some f2 ∧
        f2.output_buffer.length = RENDER_SIZE ∧
        RENDER_SIZE = 256 * 240 * 4 ∧
        (∀ i, i < RENDER_WIDTH * RENDER_HEIGHT →
          f2.output_buffer.getD (4 * i) 0 =
            (pal (f.front_buffer.getD i 0 &&& (SYSTEM_PALETTE_SIZE - 1))).1 ∧
          f2.output_buffer.getD (4 * i + 1) 0 =
            (pal (f.front_buffer.getD i 0 &&& (SYSTEM_PALETTE_SIZE - 1))).2.1 ∧
          f2.output_buffer.getD (4 * i + 2) 0 =
            (pal (f.front_buffer.getD i 0 &&& (SYSTEM_PALETTE_SIZE - 1))).2.2 ∧
          f2.output_buffer.getD (4 * i + 3) 0 = f.output_buffer.getD (4 * i + 3) 0) ∧
        (∀ i, i < RENDER_WIDTH * RENDER_HEIGHT →
          Frame.new.output_buffer.getD (4 * i + 3) 0 = 255) := by
  intro pal f hfront hout
  have hcond : f.front_buffer.length * 4 = f.output_buffer.length := by
    rw [hfront, hout]
    decide
  refine ⟨{ f with output_buffer := decodeLoop pal f.front_buffer f.output_buffer },
    ?_, ?_, by decide, ?_, ?_⟩
  · simp [Frame.decode_buffer, hcond]
  · have : f.output_buffer.length = 4 * f.front_buffer.length := by omega
    simpa [hout] using decodeLoop_length pal f.front_buffer f.output_buffer this
  · intro i hi
    exact decodeLoop_getD pal f.front_buffer f.output_buffer i (by rw [hfront]; exact hi)
  · intro i hi
    refine new_output_alpha (4 * i + 3) ?_ (by omega)
    simp only [RENDER_SIZE, RENDER_WIDTH, RENDER_HEIGHT, RENDER_CHANNELS] at hi ⊢
    omega

/-- C6 witness: the fresh frame is well-formed and decodes. -/
theorem decode_buffer_rgba_witness :
    (Frame.new.front_buffer.length = RENDER_WIDTH * RENDER_HEIGHT ∧
      Frame.new.output_buffer.length = RENDER_SIZE) ∧
    ∃ f2, Frame.decode_buffer (fun p => (p, p, p)) Frame.new = some f2 ∧
      f2.output_buffer.length = RENDER_SIZE ∧
      RENDER_SIZE = 256 * 240 * 4 ∧
      (∀ i, i < RENDER_WIDTH * RENDER_HEIGHT →
        f2.output_buffer.getD (4 * i) 0 =
          ((fun p => (p, p, p)) (Frame.new.front_buffer.getD i 0 &&&
            (SYSTEM_PALETTE_SIZE - 1))).1 ∧
        f2.output_buffer.getD (4 * i + 1) 0 =
          ((fun p => (p, p, p)) (Frame.new.front_buffer.getD i 0 &&&
            (SYSTEM_PALETTE_SIZE - 1))).2.1 ∧
        f2.output_buffer.getD (4 * i + 2) 0 =
          ((fun p => (p, p, p)) (Frame.new.front_buffer.getD i 0 &&&
            (SYSTEM_PALETTE_SIZE - 1))).2.2 ∧
        f2.output_buffer.getD (4 * i + 3) 0 =
          Frame.new.output_buffer.getD (4 * i + 3) 0) ∧
      (∀ i, i < RENDER_WIDTH * RENDER_HEIGHT →
        Frame.new.output_buffer.getD (4 * i + 3) 0 = 255) :=
  ⟨⟨new_front_length, new_output_length⟩,
    decode_buffer_rgba (fun p => (p, p, p)) Frame.new new_front_length
      new_output_length⟩

/-! ### NTSC filter lemmas -/

theorem foldl_length_invariant {α : Type} (g : List Nat → α → List Nat)
    (hg : ∀ acc x, (g acc x).length = acc.length) :
    ∀ (xs : List α) (init : List Nat), (xs.foldl g init).length = init.length := by
  intro xs
  induction xs with
  | nil => intro init; rfl
  | cons x xs ih =>
      intro init
      rw [List.foldl_cons, ih, hg]

theorem mkNtscPalette_length (contrib : Nat → Nat → Nat → Nat → Nat) :
    (mkNtscPalette contrib).length = 512 * 64 * 3 := by
  unfold mkNtscPalette
  rw [foldl_length_invariant]
  · exact List.length_replicate _ _
  · intro acc po
    rw [foldl_length_invariant]
    intro acc ch
    rw [foldl_length_invariant]
    intro acc c0
    rw [foldl_length_invariant]
    intro acc c1
    simp

theorem ntscAccessIdx_lt (num prev pixel i : Nat) (hp : pixel < 512) :
    ntscAccessIdx num prev pixel i < NTSC_PALETTE_LEN := by
  have hand : prev &&& 0x3F ≤ 63 := Nat.and_le_right
  simp only [ntscAccessIdx, NTSC_PALETTE_LEN]
  by_cases hb : num &&& 1 = 1 <;> simp only [hb, if_true, if_false] <;> omega

theorem ntscAccesses_bounded (num : Nat) :
    ∀ (front : List Nat) (prev i : Nat), (∀ p ∈ front, p < 512) →
      ∀ a ∈ ntscAccesses num front prev i, a < NTSC_PALETTE_LEN := by
  intro front
  induction front with
  | nil =>
      intro prev i _ a ha
      simp [ntscAccesses] at ha
  | cons pixel front ih =>
      intro prev i hall a ha
      simp only [ntscAccesses, List.mem_append] at ha
      rcases ha with ha | ha
      · by_cases hc : i % 256 = 0
        · simp [hc] at ha
        · simp only [hc, if_false, List.mem_singleton] at ha
          subst ha
          exact ntscAccessIdx_lt num prev pixel i (hall pixel (by simp))
      · exact ih pixel (i + 1) (fun p hp => hall p (by simp [hp])) a ha

theorem ntscLoop_congr (num : Nat) (ntsc ntsc2 : Nat → Nat) :
    ∀ (front out : List Nat) (prev i : Nat),
      (∀ a ∈ ntscAccesses num front prev i, ntsc a = ntsc2 a) →
      ntscLoop ntsc num front out prev i = ntscLoop ntsc2 num front out prev i := by
  intro front
  induction front with
  | nil => intro out prev i _; rfl
  | cons pixel front ih =>
      intro out prev i h
      have hrest : ntscLoop ntsc num front (out.drop 4) pixel (i + 1) =
          ntscLoop ntsc2 num front (out.drop 4) pixel (i + 1) :=
        ih (out.drop 4) pixel (i + 1)
          (fun a ha => h a (by simp [ntscAccesses, ha]))
      have hcolor : (if i % 256 = 0 then 0 else ntsc (ntscAccessIdx num prev pixel i)) =
          (if i % 256 = 0 then 0 else ntsc2 (ntscAccessIdx num prev pixel i)) := by
        by_cases hc : i % 256 = 0
        · simp [hc]
        · simp only [hc, if_false]
          exact h _ (by simp [ntscAccesses, hc])
      simp only [ntscLoop]
      rw [hrest, hcolor]

/-- C7: the `NTSC_PALETTE` construction yields exactly `512 * 64 * 3`
entries (whatever each iteration contributes), every table index
`apply_ntsc_filter` reads for a frame whose pixel values are below 512 is
in bounds (the previous-pixel component being masked to 6 bits), and the
filter's result depends on the table only through entries below that bound
— so the filter never reads outside the table (and, being a pure
consumer of the lookup function, never writes it). -/
theorem ntsc_palette_bounds :
    ∀ (contrib : Nat → Nat → Nat → Nat → Nat) (ntsc ntsc2 : Nat → Nat) (f : Frame),
      (∀ p ∈ f.front_buffer, p < 512) →
      (mkNtscPalette contrib).length = NTSC_PALETTE_LEN ∧
      NTSC_PALETTE_LEN = 512 * 64 * 3 ∧
      (∀ a ∈ ntscAccesses f.num f.front_buffer f.prev_pixel 0, a < NTSC_PALETTE_LEN) ∧
      ((∀ a, a < NTSC_PALETTE_LEN → ntsc a = ntsc2 a) →
        Frame.apply_ntsc_filter ntsc f = Frame.apply_ntsc_filter ntsc2 f) := by
  intro contrib ntsc ntsc2 f hpix
  refine ⟨mkNtscPalette_length contrib, rfl, ?_, ?_⟩
  · exact ntscAccesses_bounded f.num f.front_buffer f.prev_pixel 0 hpix
  · intro hagree
    simp only [Frame.apply_ntsc_filter]
    by_cases hc : f.front_buffer.length * 4 = f.output_buffer.length
    · rw [if_pos hc, if_pos hc,
        ntscLoop_congr f.num ntsc ntsc2 f.front_buffer f.output_buffer f.prev_pixel 0
          (fun a ha => hagree a
            (ntscAccesses_bounded f.num f.front_buffer f.prev_pixel 0 hpix a ha))]
    · rw [if_neg hc, if_neg hc]

/-- A tiny frame with in-range pixel values used to witness the NTSC
bounds. -/
def ntscWitnessFrame : Frame :=
  { num := 0, shift_lo := 0, shift_hi := 0, tile_addr := 0, tile_lo := 0,
    tile_hi := 0, prev_palette := 0, curr_palette := 0, palette := 0,
    prev_pixel := 0, last_updated_pixel := 0,
    front_buffer := [500, 7], back_buffer := [0, 0],
    output_buffer := List.replicate 8 0 }

/-- C7 witness: the bounds theorem applied to a concrete in-range frame. -/
theorem ntsc_palette_bounds_witness :
    (∀ p ∈ ntscWitnessFrame.front_buffer, p < 512) ∧
    ((mkNtscPalette fun _ _ _ _ => 1).length = NTSC_PALETTE_LEN ∧
      NTSC_PALETTE_LEN = 512 * 64 * 3 ∧
      (∀ a ∈ ntscAccesses ntscWitnessFrame.num ntscWitnessFrame.front_buffer
          ntscWitnessFrame.prev_pixel 0, a < NTSC_PALETTE_LEN) ∧
      ((∀ a, a < NTSC_PALETTE_LEN → (fun a => a + 2) a = (fun a => a + 2) a) →
        Frame.apply_ntsc_filter (fun a => a + 2) ntscWitnessFrame =
          Frame.apply_ntsc_filter (fun a => a + 2) ntscWitnessFrame)) :=
  ⟨by decide,
    ntsc_palette_bounds (fun _ _ _ _ => 1) (fun a => a + 2) (fun a => a + 2)
      ntscWitnessFrame (by decide)⟩

/-! ### Clocking lemmas -/

theorem clockFrameLoop_exit (M : Type) (clock : NesClock M) :
    ∀ (fuel : Nat) (s s_exit : NesState M),
      clockFrameLoop clock fuel s = some s_exit →
      s_exit.frame_complete = true ∨ s_exit.cpu_break = true := by
  intro fuel
  induction fuel with
  | zero =>
      intro s s_exit h
      simp [clockFrameLoop] at h
  | succ fuel ih =>
      intro s s_exit h
      simp only [clockFrameLoop] at h
      by_cases hc : s.cpu_break = false ∧ s.frame_complete = false
      · rw [if_pos hc] at h
        exact ih _ _ h
      · rw [if_neg hc] at h
        injection h with h
        subst h
        rcases Bool.eq_false_or_eq_true s.cpu_break with hb | hb
        · right
          exact hb
        · left
          rcases Bool.eq_false_or_eq_true s.frame_complete with hf | hf
          · exact hf
          · exact absurd ⟨hb, hf⟩ hc

theorem clockFrameLoop_jam_none :
    ∀ (fuel : Nat) (s : NesState Unit), s.cpu_break = false → s.frame_complete = false →
      clockFrameLoop (jamClock Unit) fuel s = none := by
  intro fuel
  induction fuel with
  | zero => intro s _ _; rfl
  | succ fuel ih =>
      intro s hb hf
      simp only [clockFrameLoop]
      rw [if_pos ⟨hb, hf⟩]
      exact ih s hb hf

theorem clockSecondsLoop_jam_none :
    ∀ (fuel : Nat) (s : NesState Unit), s.cpu_break = false → 0 < s.cycles_remaining →
      clockSecondsLoop exactF32 (jamClock Unit) fuel s = none := by
  intro fuel
  induction fuel with
  | zero => intro s _ _; rfl
  | succ fuel ih =>
      intro s hb hr
      simp only [clockSecondsLoop]
      rw [if_pos ⟨hb, hr⟩]
      refine ih _ hb ?_
      show 0 < s.cycles_remaining - ((0 : Nat) : Rat)
      simpa using hr

theorem clockSecondsLoop_absorb_none :
    ∀ (fuel : Nat) (s : NesState Unit), s.cpu_break = false →
      (2 : Rat) ^ 25 ≤ s.cycles_remaining →
      clockSecondsLoop absorbF32 oneClock fuel s = none := by
  intro fuel
  induction fuel with
  | zero => intro s _ _; rfl
  | succ fuel ih =>
      intro s hb hr
      have hpos : 0 < s.cycles_remaining :=
        lt_of_lt_of_le (by norm_num) hr
      have habs : absorbF32.sub s.cycles_remaining ((1 : Nat) : Rat) =
          s.cycles_remaining := by
        show absorbSub s.cycles_remaining ((1 : Nat) : Rat) = s.cycles_remaining
        rw [absorbSub, if_pos ⟨hr, by norm_num⟩]
      simp only [clockSecondsLoop]
      rw [if_pos ⟨hb, hpos⟩]
      show clockSecondsLoop absorbF32 oneClock fuel
        { s with cycles_remaining := absorbF32.sub s.cycles_remaining ((1 : Nat) : Rat) }
        = none
      rw [habs]
      exact ih s hb hr

theorem clockSecondsLoop_progress_isSome (M : Type) (ops : F32Ops)
    (clock : NesClock M)
    (hcyc : ∀ x : NesState M, 1 ≤ (clock x).2)
    (hrem : ∀ x : NesState M, ((clock x).1).cycles_remaining = x.cycles_remaining)
    (hsub : ∀ (x : Rat) (c : Nat), 1 ≤ c → ops.sub x (c : Rat) ≤ x - 1 / 2) :
    ∀ (k : Nat) (s : NesState M), s.cycles_remaining ≤ (k : Rat) / 2 →
      (clockSecondsLoop ops clock (k + 1) s).isSome = true := by
  intro k
  induction k with
  | zero =>
      intro s hs
      simp only [clockSecondsLoop]
      rw [if_neg]
      · rfl
      · rintro ⟨_, h2⟩
        exact absurd h2 (not_lt.mpr (by simpa using hs))
  | succ k ih =>
      intro s hs
      show (if s.cpu_break = false ∧ 0 < s.cycles_remaining then
          clockSecondsLoop ops clock (k + 1)
            { (clock s).1 with
              cycles_remaining := ops.sub (clock s).1.cycles_remaining
                (((clock s).2 : Nat) : Rat) }
        else some s).isSome = true
      by_cases hc : s.cpu_break = false ∧ 0 < s.cycles_remaining
      · rw [if_pos hc]
        refine ih _ ?_
        show ops.sub (clock s).1.cycles_remaining (((clock s).2 : Nat) : Rat) ≤
          (k : Rat) / 2
        rw [hrem s]
        have h2 := hsub s.cycles_remaining ((clock s).2) (hcyc s)
        have hk : s.cycles_remaining ≤ ((k : Rat) + 1) / 2 := by
          push_cast at hs
          linarith
        linarith
      · rw [if_neg hc]
        rfl

/-- C1 counterexample: from a state in which a CPU breakpoint has fired
(`cpu_break = true`) while the PPU has not signalled end-of-frame,
`clock_frame` returns immediately — the loop exits with `frame_complete`
still `false`, so the function does not return "only after the PPU has
signaled end-of-frame"; the trailing clear still leaves the flag `false`. -/
theorem clock_frame_signal_counterexample :
    breakState.cpu_break = true ∧
    breakState.frame_complete = false ∧
    clockFrameLoop (jamClock Unit) 1 breakState = some breakState ∧
    clock_frame (jamClock Unit) 1 breakState =
      some { cpu_break := false, frame_complete := false, cycles_remaining := 0,
             mach := () } :=
  ⟨rfl, rfl, rfl, rfl⟩

/-- C1 amended: whenever `clock_frame` returns, the loop exited because the
PPU signalled end-of-frame (`frame_complete` became true) **or** because a
CPU breakpoint set `cpu_break`; in either case both flags are cleared back
to `false` on return. -/
theorem clock_frame_signal_amended :
    ∀ (M : Type) (clock : NesClock M) (fuel : Nat) (s r : NesState M),
      clock_frame clock fuel s = some r →
      r.frame_complete = false ∧ r.cpu_break = false ∧
      ∃ s_exit, clockFrameLoop clock fuel s = some s_exit ∧
        (s_exit.frame_complete = true ∨ s_exit.cpu_break = true) := by
  intro M clock fuel s r h
  simp only [clock_frame, Option.map_eq_some'] at h
  obtain ⟨s_exit, hloop, hr⟩ := h
  subst hr
  exact ⟨rfl, rfl, s_exit, hloop, clockFrameLoop_exit M clock fuel s s_exit hloop⟩

/-- The state `clock_frame` returns from `completeState` (both flags
cleared). -/
def clearedState : NesState Unit :=
  { cpu_break := false, frame_complete := false, cycles_remaining := 0, mach := () }

/-- C1 witness: from a state whose frame is complete, a fuel of 1 returns,
and the amended theorem applies. -/
theorem clock_frame_signal_amended_witness :
    clock_frame (jamClock Unit) 1 completeState = some clearedState ∧
    (clearedState.frame_complete = false ∧ clearedState.cpu_break = false ∧
      ∃ s_exit, clockFrameLoop (jamClock Unit) 1 completeState = some s_exit ∧
        (s_exit.frame_complete = true ∨ s_exit.cpu_break = true)) :=
  ⟨rfl, clock_frame_signal_amended Unit (jamClock Unit) 1 completeState clearedState rfl⟩

/-- C2 counterexample: in a KIL-jammed machine — every `clock()` returns 0
cycles and changes nothing — neither `clock_frame` nor `clock_seconds 1`
(a positive duration) ever terminates from a quiescent state: no amount of
fuel makes either loop exit. -/
theorem clocking_termination_counterexample :
    (0 : Rat) < 1 ∧
    ¬ clockFrameTerminates (jamClock Unit) jamState ∧
    ¬ clockSecondsTerminates exactF32 (jamClock Unit) 1 jamState := by
  refine ⟨by norm_num, ?_, ?_⟩
  · rintro ⟨fuel, r, h⟩
    rw [clock_frame, clockFrameLoop_jam_none fuel jamState rfl rfl] at h
    simp at h
  · rintro ⟨fuel, r, h⟩
    simp only [clock_seconds] at h
    rw [clockSecondsLoop_jam_none fuel _ rfl ?hpos] at h
    case hpos =>
      show (0 : Rat) <
        exactF32.add jamState.cycles_remaining (exactF32.mul CPU_CLOCK_RATE 1)
      norm_num [exactF32, jamState, CPU_CLOCK_RATE]
    simp at h

/-- C2 amended: `clock_frame` terminates from every state from which
repeated `clock()` calls eventually raise `frame_complete` or `cpu_break`;
`clock_seconds` terminates from every state provided every `clock()` call
consumes at least one CPU cycle and leaves the accumulator alone, **and**
the `f32` subtraction actually decreases the accumulator by at least half a
cycle whenever at least one cycle is subtracted — a property IEEE-754 `f32`
has only below its absorption threshold.  The proviso is necessary: with an
absorbing subtraction (accumulator at `2^25`, as `clock_seconds 64`
produces) the loop runs forever although every `clock()` consumes a cycle;
and a KIL-jammed machine defeats both calls (see the counterexample). -/
theorem clocking_termination_amended :
    (∀ (M : Type) (ops : F32Ops) (clock : NesClock M) (s : NesState M) (t : Rat),
       (∀ x : NesState M, 1 ≤ (clock x).2) →
       (∀ x : NesState M, ((clock x).1).cycles_remaining = x.cycles_remaining) →
       (∀ (x : Rat) (c : Nat), 1 ≤ c → ops.sub x (c : Rat) ≤ x - 1 / 2) →
       clockSecondsTerminates ops clock t s) ∧
    (∀ (M : Type) (clock : NesClock M) (s : NesState M) (n : Nat),
       ((stepN clock n s).frame_complete = true ∨ (stepN clock n s).cpu_break = true) →
       clockFrameTerminates clock s) ∧
    ¬ clockSecondsTerminates absorbF32 oneClock 64 jamState := by
  refine ⟨?_, ?_, ?_⟩
  · intro M ops clock s t hcyc hrem hsub
    have hle : (ops.add s.cycles_remaining (ops.mul CPU_CLOCK_RATE t)) ≤
        ((2 * Nat.ceil (ops.add s.cycles_remaining (ops.mul CPU_CLOCK_RATE t)) :
          Nat) : Rat) / 2 := by
      have hceil := Nat.le_ceil (ops.add s.cycles_remaining (ops.mul CPU_CLOCK_RATE t))
      push_cast
      linarith
    have hsome := clockSecondsLoop_progress_isSome M ops clock hcyc hrem hsub
      (2 * Nat.ceil (ops.add s.cycles_remaining (ops.mul CPU_CLOCK_RATE t)))
      { s with cycles_remaining :=
        ops.add s.cycles_remaining (ops.mul CPU_CLOCK_RATE t) } hle
    obtain ⟨r, hr⟩ := Option.isSome_iff_exists.mp hsome
    refine ⟨2 * Nat.ceil (ops.add s.cycles_remaining (ops.mul CPU_CLOCK_RATE t)) + 1,
      { (if r.cpu_break then { r with cycles_remaining := 0 } else r) with
        cpu_break := false }, ?_⟩
    simp only [clock_seconds]
    rw [hr]
    rfl
  · intro M clock s n
    induction n generalizing s with
    | zero =>
        intro h
        have hnc : ¬ (s.cpu_break = false ∧ s.frame_complete = false) := by
          rintro ⟨hb, hf⟩
          rcases h with h | h
          · rw [stepN] at h
            rw [hf] at h
            exact Bool.false_ne_true h
          · rw [stepN] at h
            rw [hb] at h
            exact Bool.false_ne_true h
        refine ⟨1, { s with cpu_break := false, frame_complete := false }, ?_⟩
        simp only [clock_frame, clockFrameLoop, if_neg hnc]
        rfl
    | succ n ih =>
        intro h
        by_cases hc : s.cpu_break = false ∧ s.frame_complete = false
        · obtain ⟨fuel, r, hr⟩ := ih ((clock s).1) (by simpa [stepN] using h)
          refine ⟨fuel + 1, r, ?_⟩
          simp only [clock_frame, clockFrameLoop, if_pos hc]
          simpa [clock_frame] using hr
        · refine ⟨1, { s with cpu_break := false, frame_complete := false }, ?_⟩
          simp only [clock_frame, clockFrameLoop, if_neg hc]
          rfl
  · rintro ⟨fuel, r, h⟩
    simp only [clock_seconds] at h
    rw [clockSecondsLoop_absorb_none fuel _ rfl ?habs] at h
    case habs =>
      show (2 : Rat) ^ 25 ≤
        absorbF32.add jamState.cycles_remaining (absorbF32.mul CPU_CLOCK_RATE 64)
      norm_num [absorbF32, jamState, CPU_CLOCK_RATE]
    simp at h

/-- C2 witness: the amended termination theorem applied to the one-cycle
machine under exact (sub-absorption-regime) `f32` arithmetic (for
`clock_seconds`) and to an already-complete frame (for `clock_frame`). -/
theorem clocking_termination_amended_witness :
    (∀ x : NesState Unit, 1 ≤ (oneClock x).2) ∧
    (∀ x : NesState Unit, ((oneClock x).1).cycles_remaining = x.cycles_remaining) ∧
    (∀ (x : Rat) (c : Nat), 1 ≤ c → exactF32.sub x (c : Rat) ≤ x - 1 / 2) ∧
    clockSecondsTerminates exactF32 oneClock 1 jamState ∧
    ((stepN (jamClock Unit) 0 completeState).frame_complete = true ∨
      (stepN (jamClock Unit) 0 completeState).cpu_break = true) ∧
    clockFrameTerminates (jamClock Unit) completeState := by
  have hsub : ∀ (x : Rat) (c : Nat), 1 ≤ c → exactF32.sub x (c : Rat) ≤ x - 1 / 2 := by
    intro x c hc
    show x - (c : Rat) ≤ x - 1 / 2
    have h1 : (1 : Rat) ≤ (c : Rat) := by
      exact_mod_cast hc
    linarith
  exact ⟨fun _ => le_refl 1, fun _ => rfl, hsub,
    clocking_termination_amended.1 Unit exactF32 oneClock jamState 1
      (fun _ => le_refl 1) (fun _ => rfl) hsub,
    Or.inl rfl,
    clocking_termination_amended.2.1 Unit (jamClock Unit) completeState 0 (Or.inl rfl)⟩

end Tetanes
